import Mathlib

/-!
Verification of the code-extractor program (`src/main.rs`).

The program parses a source file into a sequence of top-level items
(via the external `syn` parser), then either lists every item's
`(kind, name)` pair or extracts one item by kind and name, rendering it
through the external `prettyplease` formatter.

Shallow embedding:
* `Item` models `syn::Item`: one constructor per variant the program
  matches on, each carrying its identifier and an opaque `body` string
  standing for the variant-specific structural payload the core never
  inspects; `other` stands for every unhandled variant (the `_ => None`
  arm of the listing match).
* `File` models `syn::File` (shebang, attrs, items).
* `classify` is the match inside the `ListItems` arm of `main`.
* `listItems` is the listing loop of `main`, collecting the printed
  `(kind, name)` lines in order.
* `Kind` models the type parameter of `extract::<T>` (which `Find`
  implementation is dispatched); `find_item` and `find` model the
  `Find` trait (the macro-generated `impl_traits!` bodies plus the
  hand-written `ItemFn` and `ItemMacro` impls).
* `unparseItem` models `Unparse::unparse`: it yields the synthetic
  `File` handed to the external formatter.  The formatter and re-parser
  are out-of-scope external collaborators that preserve the structure
  of that file, so rendered output is modelled by the synthetic file
  itself.
* `extract` models `fn extract<T>`; the `unwrap()` abort on a failed
  find is modelled by `Option`, `clone()` is the identity under value
  semantics.
* `runMacroCommand` models the `ExtractItem::Macro` arm of `main`:
  the chunks printed by a macro-extraction run.
* `macroSubcommandDoc` is the doc comment on the `Macro` subcommand
  (`/// Note: output might be mangled`), which `clap` shows as help
  text.
-/

inductive Item where
  | fn (ident : String) (body : String)
  | structI (ident : String) (body : String)
  | enumI (ident : String) (body : String)
  | traitI (ident : String) (body : String)
  | constI (ident : String) (body : String)
  | externCrate (ident : String) (body : String)
  | staticI (ident : String) (body : String)
  | typeI (ident : String) (body : String)
  | unionI (ident : String) (body : String)
  | macroI (ident : Option String) (body : String)
  | other (body : String)
  deriving DecidableEq, Repr

structure File where
  shebang : Option String
  attrs : List String
  items : List Item
  deriving DecidableEq, Repr

/-- The match in the `ListItems` arm of `main`, mapping an item to its
`(kind label, identifier)` pair, `none` for the `_ => None` arm and for
a macro invocation with no identifier. -/
def classify : Item → Option (String × String)
  | .fn i _ => some ("fn", i)
  | .structI i _ => some ("struct", i)
  | .enumI i _ => some ("enum", i)
  | .traitI i _ => some ("trait", i)
  | .constI i _ => some ("const", i)
  | .externCrate i _ => some ("extern crate", i)
  | .staticI i _ => some ("static", i)
  | .typeI i _ => some ("type", i)
  | .unionI i _ => some ("union", i)
  | .macroI (some i) _ => some ("macro", i)
  | .macroI none _ => none
  | .other _ => none

/-- The listing loop of `main`: walk the items in order, print the
classified ones.  The result is the sequence of printed pairs. -/
def listItems : List Item → List (String × String)
  | [] => []
  | it :: rest =>
    match classify it with
    | some e => e :: listItems rest
    | none => listItems rest

/-- Which `Find`/`Unparse` implementation `extract::<T>` dispatches to:
one value per item type carrying an identifier. -/
inductive Kind where
  | function
  | structK
  | enumK
  | traitK
  | constK
  | externCrate
  | staticK
  | typeK
  | unionK
  | macroK
  deriving DecidableEq, Repr

/-- The kind label the listing match prints for each item type. -/
def Kind.label : Kind → String
  | .function => "fn"
  | .structK => "struct"
  | .enumK => "enum"
  | .traitK => "trait"
  | .constK => "const"
  | .externCrate => "extern crate"
  | .staticK => "static"
  | .typeK => "type"
  | .unionK => "union"
  | .macroK => "macro"

/-- `Find::find_item` for each item type: the `impl_traits!`-generated
bodies, plus the hand-written `ItemFn` impl and the `ItemMacro` impl,
whose `f.ident.as_ref()?` makes an unnamed macro invocation yield
`None`. -/
def find_item (k : Kind) (item : Item) (name : String) : Option Item :=
  match k, item with
  | .function, .fn i b => if i = name then some (.fn i b) else none
  | .structK, .structI i b => if i = name then some (.structI i b) else none
  | .enumK, .enumI i b => if i = name then some (.enumI i b) else none
  | .traitK, .traitI i b => if i = name then some (.traitI i b) else none
  | .constK, .constI i b => if i = name then some (.constI i b) else none
  | .externCrate, .externCrate i b =>
    if i = name then some (.externCrate i b) else none
  | .staticK, .staticI i b => if i = name then some (.staticI i b) else none
  | .typeK, .typeI i b => if i = name then some (.typeI i b) else none
  | .unionK, .unionI i b => if i = name then some (.unionI i b) else none
  | .macroK, .macroI oi b =>
    match oi with
    | none => none
    | some i => if i = name then some (.macroI (some i) b) else none
  | _, _ => none

/-- `Find::find`: scan the file's items in order, return the first item
on which `find_item` succeeds. -/
def find (k : Kind) (items : List Item) (name : String) : Option Item :=
  match items with
  | [] => none
  | it :: rest =>
    match find_item k it name with
    | some e => some e
    | none => find k rest name

/-- `Unparse::unparse`: the synthetic file built around the single item
and handed to the external formatter. -/
def unparseItem (it : Item) : File :=
  { shebang := none, attrs := [], items := [it] }

/-- `fn extract<T>`: find the item, clone it, unparse it.  The
`unwrap()` abort on a failed find is the `none` case. -/
def extract (k : Kind) (f : File) (name : String) : Option File :=
  (find k f.items name).map unparseItem

/-- `extract` seen with the borrow made explicit: `fn extract<T>` takes
`&File`, so as a state transformer it returns the file unchanged. -/
def extractSt (k : Kind) (f : File) (name : String) : Option File × File :=
  (extract k f name, f)

/-- One chunk a run prints: either a warning line or rendered output. -/
inductive OutChunk where
  | warning (msg : String)
  | rendered (f : File)
  deriving DecidableEq, Repr

def OutChunk.isWarning : OutChunk → Bool
  | .warning _ => true
  | .rendered _ => false

/-- The `ExtractItem::Macro` arm of `main`: on success it prints
exactly the extracted rendering and nothing else. -/
def runMacroCommand (f : File) (name : String) : Option (List OutChunk) :=
  (extract Kind.macroK f name).map (fun out => [OutChunk.rendered out])

/-- The doc comment on the `Macro` subcommand variant, which `clap`
surfaces as help text for that subcommand. -/
def macroSubcommandDoc : Option String :=
  some "Note: output might be mangled"

/-! ### Helper lemmas -/

theorem find_item_eq_self (k : Kind) (it : Item) (n : String) (e : Item)
    (h : find_item k it n = some e) : e = it := by
  cases it with
  | macroI oi b =>
    cases k <;> simp only [find_item] at h <;> try (solve | simp at h)
    cases oi with
    | none =>
      change (none : Option Item) = some e at h
      simp at h
    | some i =>
      change (if i = n then some (Item.macroI (some i) b) else none)
        = some e at h
      split at h
      · exact (Option.some.inj h).symm
      · simp at h
  | _ =>
    cases k <;> simp only [find_item] at h <;>
      first
        | (solve | simp at h)
        | (split at h <;>
            first
              | exact (Option.some.inj h).symm
              | simp at h)

theorem find_item_isSome_iff (k : Kind) (it : Item) (n : String) :
    (find_item k it n).isSome ↔ classify it = some (k.label, n) := by
  cases it with
  | macroI oi b =>
    cases oi with
    | none => cases k <;> simp [find_item, classify, Kind.label]
    | some i =>
      cases k <;> rcases eq_or_ne i n with h | h <;>
        simp [find_item, classify, Kind.label, h]
  | fn i b =>
    cases k <;> rcases eq_or_ne i n with h | h <;>
      simp [find_item, classify, Kind.label, h]
  | structI i b =>
    cases k <;> rcases eq_or_ne i n with h | h <;>
      simp [find_item, classify, Kind.label, h]
  | enumI i b =>
    cases k <;> rcases eq_or_ne i n with h | h <;>
      simp [find_item, classify, Kind.label, h]
  | traitI i b =>
    cases k <;> rcases eq_or_ne i n with h | h <;>
      simp [find_item, classify, Kind.label, h]
  | constI i b =>
    cases k <;> rcases eq_or_ne i n with h | h <;>
      simp [find_item, classify, Kind.label, h]
  | externCrate i b =>
    cases k <;> rcases eq_or_ne i n with h | h <;>
      simp [find_item, classify, Kind.label, h]
  | staticI i b =>
    cases k <;> rcases eq_or_ne i n with h | h <;>
      simp [find_item, classify, Kind.label, h]
  | typeI i b =>
    cases k <;> rcases eq_or_ne i n with h | h <;>
      simp [find_item, classify, Kind.label, h]
  | unionI i b =>
    cases k <;> rcases eq_or_ne i n with h | h <;>
      simp [find_item, classify, Kind.label, h]
  | other b => cases k <;> simp [find_item, classify, Kind.label]

theorem listItems_eq_filterMap (l : List Item) :
    listItems l = l.filterMap classify := by
  induction l with
  | nil => rfl
  | cons it rest ih =>
    rw [listItems, List.filterMap_cons]
    cases classify it <;> simp [ih]

theorem mem_listItems_iff (l : List Item) (p : String × String) :
    p ∈ listItems l ↔ ∃ it ∈ l, classify it = some p := by
  rw [listItems_eq_filterMap, List.mem_filterMap]

theorem find_isSome_iff (k : Kind) (l : List Item) (n : String) :
    (find k l n).isSome ↔ ∃ it ∈ l, (find_item k it n).isSome := by
  induction l with
  | nil => simp [find]
  | cons it rest ih =>
    rw [find]
    cases hfi : find_item k it n with
    | some e => simp [hfi]
    | none => simp [ih, hfi]

theorem find_mem (k : Kind) (l : List Item) (n : String) (d : Item)
    (h : find k l n = some d) : d ∈ l := by
  induction l with
  | nil => simp [find] at h
  | cons it rest ih =>
    rw [find] at h
    cases hfi : find_item k it n with
    | some e =>
      rw [hfi] at h
      have : e = it := find_item_eq_self k it n e hfi
      have : d = it := by rw [← this]; exact (Option.some.inj h).symm
      simp [this]
    | none =>
      rw [hfi] at h
      exact List.mem_cons_of_mem _ (ih h)

theorem find_matched (k : Kind) (l : List Item) (n : String) (d : Item)
    (h : find k l n = some d) : find_item k d n = some d := by
  induction l with
  | nil => simp [find] at h
  | cons it rest ih =>
    rw [find] at h
    cases hfi : find_item k it n with
    | some e =>
      rw [hfi] at h
      have he : e = it := find_item_eq_self k it n e hfi
      have hd : d = e := (Option.some.inj h).symm
      rw [hd, he]
      rw [he] at hfi
      exact hfi
    | none =>
      rw [hfi] at h
      exact ih h

theorem label_injective (k k' : Kind) (h : k.label = k'.label) : k = k' := by
  cases k <;> cases k' <;> simp_all [Kind.label]

theorem extract_isSome_iff_aux (k : Kind) (f : File) (n : String) :
    (extract k f n).isSome ↔ ∃ it ∈ f.items, classify it = some (k.label, n) := by
  have hm : (extract k f n).isSome ↔ (find k f.items n).isSome := by
    rw [extract]; cases find k f.items n <;> simp
  rw [hm, find_isSome_iff]
  constructor
  · rintro ⟨it, hmem, hs⟩
    exact ⟨it, hmem, (find_item_isSome_iff k it n).mp hs⟩
  · rintro ⟨it, hmem, hc⟩
    exact ⟨it, hmem, (find_item_isSome_iff k it n).mpr hc⟩

/-! ### Claim theorems -/

/-- C1: if the declarations before `d` all fail to classify to the
requested `(kind label, identifier)` pair and `d` classifies to it,
then `find` over the whole sequence returns `d` itself — the earliest
match in source order — regardless of any later matches in `post`. -/
theorem locate_first_match (k : Kind) (n : String) (pre post : List Item)
    (d : Item) (hpre : ∀ x ∈ pre, classify x ≠ some (k.label, n))
    (hd : classify d = some (k.label, n)) :
    find k (pre ++ d :: post) n = some d := by
  induction pre with
  | nil =>
    rw [List.nil_append, find]
    have hs : (find_item k d n).isSome := (find_item_isSome_iff k d n).mpr hd
    cases hfi : find_item k d n with
    | none => rw [hfi] at hs; simp at hs
    | some e =>
      exact congrArg some (find_item_eq_self k d n e hfi)
  | cons x xs ih =>
    rw [List.cons_append, find]
    have hx : find_item k x n = none := by
      cases hfx : find_item k x n with
      | none => rfl
      | some e =>
        have hsx : (find_item k x n).isSome := by rw [hfx]; rfl
        exact absurd ((find_item_isSome_iff k x n).mp hsx)
          (hpre x (List.mem_cons_self x xs))
    rw [hx]
    exact ih fun y hy => hpre y (List.mem_cons_of_mem x hy)

theorem locate_first_match_witness :
    (∀ x ∈ [Item.structI "run" "s"],
        classify x ≠ some (Kind.function.label, "run")) ∧
    classify (Item.fn "run" "a") = some (Kind.function.label, "run") ∧
    find Kind.function
        ([Item.structI "run" "s"] ++ Item.fn "run" "a" :: [Item.fn "run" "b"])
        "run" = some (Item.fn "run" "a") :=
  ⟨by decide, by decide,
    locate_first_match Kind.function "run" [Item.structI "run" "s"]
      [Item.fn "run" "b"] (Item.fn "run" "a") (by decide) (by decide)⟩

/-- C2: extraction for a requested `(kind, name)` succeeds exactly when
the catalog produced by the listing loop contains the corresponding
`(kind label, identifier)` pair; absence means the not-found outcome
with no rendered output. -/
theorem extract_isSome_iff_mem_catalog (k : Kind) (f : File) (n : String) :
    (extract k f n).isSome ↔ (k.label, n) ∈ listItems f.items := by
  rw [mem_listItems_iff]
  exact extract_isSome_iff_aux k f n

/-- C3: the classifier is a pure total function returning exactly the
fixed label of each named variant together with its identifier,
returning `none` exactly on the `Other` variant and on a macro
invocation without an identifier, and the variant-to-label mapping is
injective. -/
theorem classify_total_injective :
    (∀ i b, classify (Item.fn i b) = some ("fn", i)) ∧
    (∀ i b, classify (Item.structI i b) = some ("struct", i)) ∧
    (∀ i b, classify (Item.enumI i b) = some ("enum", i)) ∧
    (∀ i b, classify (Item.traitI i b) = some ("trait", i)) ∧
    (∀ i b, classify (Item.constI i b) = some ("const", i)) ∧
    (∀ i b, classify (Item.externCrate i b) = some ("extern crate", i)) ∧
    (∀ i b, classify (Item.staticI i b) = some ("static", i)) ∧
    (∀ i b, classify (Item.typeI i b) = some ("type", i)) ∧
    (∀ i b, classify (Item.unionI i b) = some ("union", i)) ∧
    (∀ i b, classify (Item.macroI (some i) b) = some ("macro", i)) ∧
    (∀ it, classify it = none ↔
      (∃ b, it = Item.other b) ∨ (∃ b, it = Item.macroI none b)) ∧
    (∀ k k' : Kind, k.label = k'.label → k = k') := by
  refine ⟨fun i b => rfl, fun i b => rfl, fun i b => rfl, fun i b => rfl,
    fun i b => rfl, fun i b => rfl, fun i b => rfl, fun i b => rfl,
    fun i b => rfl, fun i b => rfl, ?_, label_injective⟩
  intro it
  cases it with
  | macroI oi b => cases oi <;> simp [classify]
  | _ => simp [classify]

/-- C4: the catalog built by the listing loop is exactly the in-order
image of the classifier over the declaration sequence — source order
preserved, nothing re-sorted or omitted, one entry per classifiable
declaration, duplicates kept. -/
theorem listItems_order_complete (l : List Item) :
    listItems l = l.filterMap classify ∧
    (listItems l).length
      = (l.filter fun it => (classify it).isSome).length := by
  constructor
  · exact listItems_eq_filterMap l
  · induction l with
    | nil => rfl
    | cons it rest ih =>
      rw [listItems, List.filter_cons]
      cases hc : classify it with
      | some e => simp [hc, ih]
      | none => simp [hc, ih]

/-- C5: when no declaration classifies to the requested
`(kind label, identifier)` pair, extraction yields the not-found
outcome (the `unwrap` abort, `none` here) with no rendered output, and
this outcome is identical whichever way the pair is absent — the name
existing only under a different kind is indistinguishable from the
name being absent entirely. -/
theorem extract_not_found (k : Kind) (f : File) (n : String)
    (h : ∀ d ∈ f.items, classify d ≠ some (k.label, n)) :
    extract k f n = none ∧
    ∀ (f' : File) (n' : String),
      (∀ d ∈ f'.items, classify d ≠ some (k.label, n')) →
      extract k f n = extract k f' n' := by
  have key : ∀ (g : File) (m : String),
      (∀ d ∈ g.items, classify d ≠ some (k.label, m)) →
      extract k g m = none := by
    intro g m hg
    cases he : extract k g m with
    | none => rfl
    | some out =>
      have hs : (extract k g m).isSome := by rw [he]; rfl
      obtain ⟨it, hmem, hc⟩ := (extract_isSome_iff_aux k g m).mp hs
      exact absurd hc (hg it hmem)
  refine ⟨key f n h, fun f' n' h' => ?_⟩
  rw [key f n h, key f' n' h']

theorem extract_not_found_witness :
    (∀ d ∈ (File.mk none [] [Item.fn "point" "b"]).items,
        classify d ≠ some (Kind.structK.label, "point")) ∧
    (∀ d ∈ (File.mk none [] [Item.enumI "color" "c"]).items,
        classify d ≠ some (Kind.structK.label, "absent")) ∧
    extract Kind.structK (File.mk none [] [Item.fn "point" "b"]) "point"
      = none ∧
    extract Kind.structK (File.mk none [] [Item.fn "point" "b"]) "point"
      = extract Kind.structK (File.mk none [] [Item.enumI "color" "c"])
          "absent" :=
  ⟨by decide, by decide,
    (extract_not_found Kind.structK (File.mk none [] [Item.fn "point" "b"])
      "point" (by decide)).1,
    (extract_not_found Kind.structK (File.mk none [] [Item.fn "point" "b"])
      "point" (by decide)).2 (File.mk none [] [Item.enumI "color" "c"])
      "absent" (by decide)⟩

/-- C6: the renderer hands the external formatter a synthetic file
with no shebang, no file-level attributes, and exactly one item — the
located node unmodified — so the rendered output depends only on the
node itself: two files whose locate yields the same node render
identically. -/
theorem unparse_synthetic_single_item (it : Item) :
    (unparseItem it).shebang = none ∧
    (unparseItem it).attrs = [] ∧
    (unparseItem it).items = [it] ∧
    ∀ (k : Kind) (n : String) (f1 f2 : File) (d : Item),
      find k f1.items n = some d → find k f2.items n = some d →
      extract k f1 n = extract k f2 n := by
  refine ⟨rfl, rfl, rfl, fun k n f1 f2 d h1 h2 => ?_⟩
  rw [extract, extract, h1, h2]

theorem unparse_synthetic_single_item_witness :
    find Kind.function
        (File.mk none ["allow"] [Item.structI "s" "p", Item.fn "x" "2"]).items
        "x" = some (Item.fn "x" "2") ∧
    find Kind.function (File.mk (some "#!") [] [Item.fn "x" "2"]).items "x"
      = some (Item.fn "x" "2") ∧
    extract Kind.function
        (File.mk none ["allow"] [Item.structI "s" "p", Item.fn "x" "2"]) "x"
      = extract Kind.function (File.mk (some "#!") [] [Item.fn "x" "2"]) "x" :=
  ⟨by decide, by decide,
    (unparse_synthetic_single_item (Item.fn "x" "2")).2.2.2 Kind.function "x"
      (File.mk none ["allow"] [Item.structI "s" "p", Item.fn "x" "2"])
      (File.mk (some "#!") [] [Item.fn "x" "2"])
      (Item.fn "x" "2") (by decide) (by decide)⟩

/-- C7: for every `(kind label, identifier)` pair in the catalog,
extraction succeeds and the rendered output — the synthetic file the
external formatter prints and the parser reads back structurally
unchanged — classifies to exactly one declaration with that same kind
label and identifier. -/
theorem extract_roundtrip_kind_name (k : Kind) (f : File) (n : String)
    (h : (k.label, n) ∈ listItems f.items) :
    ∃ out, extract k f n = some out ∧
      listItems out.items = [(k.label, n)] := by
  rw [mem_listItems_iff] at h
  obtain ⟨it, hmem, hc⟩ := h
  have hs : (find k f.items n).isSome := by
    rw [find_isSome_iff]
    exact ⟨it, hmem, (find_item_isSome_iff k it n).mpr hc⟩
  obtain ⟨d, hd⟩ := Option.isSome_iff_exists.mp hs
  refine ⟨unparseItem d, ?_, ?_⟩
  · rw [extract, hd]
    rfl
  · have hfd : find_item k d n = some d := find_matched k f.items n d hd
    have hsd : (find_item k d n).isSome := by rw [hfd]; rfl
    have hcd : classify d = some (k.label, n) :=
      (find_item_isSome_iff k d n).mp hsd
    show listItems [d] = [(k.label, n)]
    simp [listItems, hcd]

theorem extract_roundtrip_kind_name_witness :
    (Kind.structK.label, "Point")
      ∈ listItems (File.mk none [] [Item.fn "add" "ab",
          Item.structI "Point" "xy"]).items ∧
    (∃ out,
      extract Kind.structK
          (File.mk none [] [Item.fn "add" "ab", Item.structI "Point" "xy"])
          "Point" = some out ∧
      listItems out.items = [(Kind.structK.label, "Point")]) :=
  ⟨by decide,
    extract_roundtrip_kind_name Kind.structK
      (File.mk none [] [Item.fn "add" "ab", Item.structI "Point" "xy"])
      "Point" (by decide)⟩

/-- C8 counterexample: a successful extraction of kind `macro` prints
exactly the rendered output and nothing else — no warning chunk is
attached to the run's output, contradicting the claim that the
malformed-output caveat is surfaced as a warning on the output of the
run. -/
theorem macro_run_prints_no_warning :
    runMacroCommand (File.mk none [] [Item.macroI (some "m") "body"]) "m"
      = some [OutChunk.rendered
          (File.mk none [] [Item.macroI (some "m") "body"])] ∧
    ((runMacroCommand (File.mk none [] [Item.macroI (some "m") "body"])
        "m").getD []).all (fun c => !c.isWarning) = true := by
  constructor
  · rfl
  · rfl

/-- C8 amended: the malformed-output caveat for the `macro` kind is
documented as the macro subcommand's help text (the doc comment shown
by the argument parser), not emitted at extraction time: a successful
macro extraction's run output consists solely of the rendered text,
with no warning chunk. -/
theorem macro_caveat_in_help (f : File) (n : String) (out : List OutChunk)
    (h : runMacroCommand f n = some out) :
    (∃ r, out = [OutChunk.rendered r]) ∧
    out.all (fun c => !c.isWarning) = true ∧
    macroSubcommandDoc = some "Note: output might be mangled" := by
  rw [runMacroCommand] at h
  cases he : extract Kind.macroK f n with
  | none => rw [he] at h; simp at h
  | some o =>
    rw [he] at h
    have hout : out = [OutChunk.rendered o] := by
      simpa using h.symm
    subst hout
    exact ⟨⟨o, rfl⟩, rfl, rfl⟩

theorem macro_caveat_in_help_witness :
    runMacroCommand (File.mk none [] [Item.macroI (some "m") "b"]) "m"
      = some [OutChunk.rendered (File.mk none [] [Item.macroI (some "m") "b"])] ∧
    ((∃ r, [OutChunk.rendered (File.mk none [] [Item.macroI (some "m") "b"])]
        = [OutChunk.rendered r]) ∧
      ([OutChunk.rendered (File.mk none [] [Item.macroI (some "m") "b"])]).all
        (fun c => !c.isWarning) = true ∧
      macroSubcommandDoc = some "Note: output might be mangled") :=
  ⟨by decide,
    macro_caveat_in_help (File.mk none [] [Item.macroI (some "m") "b"]) "m"
      [OutChunk.rendered (File.mk none [] [Item.macroI (some "m") "b"])]
      (by decide)⟩

/-- C9: the macro-specific `find_item` returns `none` on an unnamed
macro invocation (the `?` on `ident`), the scan steps past such a node
unchanged, and a later macro invocation named as requested is still
found through any prefix of unnamed macro invocations. -/
theorem macro_scan_skips_unnamed (b b2 n : String) (rest pre : List Item)
    (hpre : ∀ x ∈ pre, ∃ b', x = Item.macroI none b') :
    find_item Kind.macroK (Item.macroI none b) n = none ∧
    find Kind.macroK (Item.macroI none b :: rest) n
      = find Kind.macroK rest n ∧
    find Kind.macroK (pre ++ [Item.macroI (some n) b2]) n
      = some (Item.macroI (some n) b2) := by
  refine ⟨rfl, rfl, ?_⟩
  induction pre with
  | nil =>
    rw [List.nil_append, find]
    simp [find_item]
  | cons x xs ih =>
    obtain ⟨b', hb⟩ := hpre x (List.mem_cons_self x xs)
    subst hb
    rw [List.cons_append, find]
    exact ih fun y hy => hpre y (List.mem_cons_of_mem _ hy)

theorem macro_scan_skips_unnamed_witness :
    (∀ x ∈ [Item.macroI none "p1", Item.macroI none "p2"],
        ∃ b', x = Item.macroI none b') ∧
    find_item Kind.macroK (Item.macroI none "u") "m" = none ∧
    find Kind.macroK (Item.macroI none "u" :: [Item.macroI (some "m") "q"])
        "m" = find Kind.macroK [Item.macroI (some "m") "q"] "m" ∧
    find Kind.macroK
        ([Item.macroI none "p1", Item.macroI none "p2"]
          ++ [Item.macroI (some "m") "q"]) "m"
      = some (Item.macroI (some "m") "q") := by
  have hpre : ∀ x ∈ [Item.macroI none "p1", Item.macroI none "p2"],
      ∃ b', x = Item.macroI none b' := by
    intro x hx
    rcases List.mem_cons.mp hx with h | hx2
    · exact ⟨"p1", h⟩
    rcases List.mem_cons.mp hx2 with h | hx3
    · exact ⟨"p2", h⟩
    exact absurd hx3 (List.not_mem_nil x)
  exact ⟨hpre,
    macro_scan_skips_unnamed "u" "q" "m" [Item.macroI (some "m") "q"]
      [Item.macroI none "p1", Item.macroI none "p2"] hpre⟩

/-- C10: locating and rendering never change the parsed file: as a
state transformer, extraction returns the file unchanged, the located
node is an element of the file's own item sequence (a reference into
it), and a repeated extraction on the resulting state returns the
identical result. -/
theorem extract_frame (k : Kind) (f : File) (n : String) :
    (extractSt k f n).2 = f ∧
    (extractSt k (extractSt k f n).2 n).1 = (extractSt k f n).1 ∧
    ∀ d, find k f.items n = some d → d ∈ f.items := by
  exact ⟨rfl, rfl, fun d hd => find_mem k f.items n d hd⟩

theorem extract_frame_witness :
    (extractSt Kind.function (File.mk none [] [Item.fn "x" "1"]) "x").2
      = File.mk none [] [Item.fn "x" "1"] ∧
    find Kind.function (File.mk none [] [Item.fn "x" "1"]).items "x"
      = some (Item.fn "x" "1") ∧
    Item.fn "x" "1" ∈ (File.mk none [] [Item.fn "x" "1"]).items :=
  ⟨(extract_frame Kind.function (File.mk none [] [Item.fn "x" "1"]) "x").1,
    by decide,
    (extract_frame Kind.function (File.mk none [] [Item.fn "x" "1"]) "x").2.2
      (Item.fn "x" "1") (by decide)⟩
